import Mathlib

/-!
Verification of the sqledger terminal SQL-script tool.

The Rust sources are embedded shallowly:
  * Rust strings are lists of characters (`Str`); `String` is kept for
    stored values (script names, messages) where only equality matters.
  * `char::is_whitespace` / `str::trim` are modelled on the ASCII
    whitespace characters, and `str::to_uppercase` by the ASCII
    `Char.toUpper`; the SQL keywords compared against are ASCII, so the
    Unicode cases the Rust functions additionally handle do not affect
    the statements proved here.
  * The database, terminal, editor and clipboard collaborators are either
    oracles passed in explicitly (`DbWorld`) or, for the script table,
    a list of `Script` rows with the operations the spec gives them.
-/

/-- Rust string slices, modelled as lists of characters. -/
abbrev Str := List Char

/-- The character list of a Lean string literal (Rust `str` contents). -/
def strOf (s : String) : Str := s.data

/-- Rust `char::is_whitespace`, restricted to the ASCII whitespace characters. -/
def isWS (c : Char) : Bool := c == ' ' || c == '\t' || c == '\n' || c == '\r'

/-- Rust `str::trim_start`. -/
def trimStart (s : Str) : Str := s.dropWhile isWS

/-- Rust `str::trim_end`. -/
def trimEnd (s : Str) : Str := (s.reverse.dropWhile isWS).reverse

/-- Rust `str::trim`. -/
def trimBoth (s : Str) : Str := trimStart (trimEnd s)

/-- Rust `str::find(char)`: index of the first occurrence of `c`. -/
def findCh (c : Char) : Str → Option Nat
  | [] => none
  | d :: tl => if d == c then some 0 else (findCh c tl).map (· + 1)

/-- Rust `str::find(&str)`: index of the first occurrence of `pat` as a
contiguous sub-sequence. -/
def findSub (pat : Str) : Str → Option Nat
  | [] => if pat.isPrefixOf ([] : Str) then some 0 else none
  | c :: tl => if pat.isPrefixOf (c :: tl) then some 0 else (findSub pat tl).map (· + 1)

/-- The comment-stripping loop of `execute_sql` (src/db.rs lines 24-50),
written with explicit fuel so that it evaluates by kernel reduction; each
iteration shortens the text, so `length + 1` units of fuel always suffice
(`stripLoopF_irrel` below).  Mirrors the source: trim leading whitespace,
then strip a `--` line comment up to (and excluding) its newline, or a
`/*` block comment up to and including the first `*/`; an unterminated
comment leaves the empty text. -/
def stripLoopF : Nat → Str → Str
  | 0, s => trimStart s
  | fuel + 1, s =>
    let t := trimStart s
    if ['-', '-'].isPrefixOf t then
      match findCh '\n' t with
      | some i => stripLoopF fuel (t.drop i)
      | none => []
    else if ['/', '*'].isPrefixOf t then
      match findSub ['*', '/'] t with
      | some i => stripLoopF fuel (t.drop (i + 2))
      | none => []
    else t

/-- `relevant_sql` of `execute_sql` (src/db.rs lines 21-50): the input is
trimmed (`sql_content.trim()`), then the comment-stripping loop runs. -/
def stripComments (s : Str) : Str := stripLoopF (s.length + 1) (trimBoth s)

/-- The comment-stripping loop with its canonical fuel (enough for any
input, by `stripLoopF_irrel`); the form the stripping lemmas are stated
over. -/
def stripRun (s : Str) : Str := stripLoopF (s.length + 1) s

/-- The two statement classes of the classifier (src/db.rs line 54). -/
inductive SqlKind
  | Query
  | Command
deriving DecidableEq, Repr

/-- Rust `str::to_uppercase`, ASCII fragment. -/
def upperStr (s : Str) : Str := s.map Char.toUpper

/-- The statement classifier of `execute_sql` (src/db.rs lines 53-54 and
179): `Query` when the comment-stripped text, upper-cased, starts with
`SELECT` or `WITH`; `Command` otherwise. -/
def classify (s : Str) : SqlKind :=
  let u := upperStr (stripComments s)
  if ['S','E','L','E','C','T'].isPrefixOf u || ['W','I','T','H'].isPrefixOf u then
    SqlKind.Query
  else
    SqlKind.Command

/-- A run of leading comments interleaved with whitespace, over which the
classifier's comment-invariance holds: whitespace characters, line comments
(`--` up to a newline whose body holds no newline), and terminated block
comments `/*` body `*/`.  The block case carries two side conditions — the
body contains no `*/` and does not start with `/` — which delimit exactly
where the source's stripping agrees with "`/*` to matching `*/`": db.rs
line 38 takes the FIRST occurrence of `*/` in the whole remaining text, so
a body starting with `/` makes the opener's `*` and that `/` match as a
terminator (`/*/a*/` is cut after `/*/`).  Dropping either condition makes
the invariance false of the program, see `C1_classifier_counterexample`. -/
inductive LeadComment : Str → Prop
  | nil : LeadComment []
  | ws (c : Char) (p : Str) : isWS c = true → LeadComment p → LeadComment (c :: p)
  | line (body p : Str) : (∀ c ∈ body, (c == '\n') = false) → LeadComment p →
      LeadComment ('-' :: '-' :: (body ++ '\n' :: p))
  | blockC (body p : Str) : findSub ['*', '/'] body = none → body.head? ≠ some '/' →
      LeadComment p → LeadComment ('/' :: '*' :: (body ++ '*' :: '/' :: p))

/-! ## Result rendering (src/db.rs lines 62-172) -/

/-- The per-column width accumulation of `execute_sql` (src/db.rs lines 68 and
144): widths start at the header lengths and take the maximum with every
cell's rendered length, row by row. -/
def computeWidths (names : List Str) (rows : List (List Str)) : List Nat :=
  rows.foldl (fun ws row => List.zipWith Nat.max ws (row.map List.length))
    (names.map List.length)

/-- `computeWidths` with an arbitrary starting width list (the generalisation
the width-invariant induction runs over). -/
def widthsFrom (init : List Nat) (rows : List (List Str)) : List Nat :=
  rows.foldl (fun ws row => List.zipWith Nat.max ws (row.map List.length)) init

/-- Rust `format!` left-alignment: pad `s` with spaces on the right to width `w`
(no truncation when `s` is longer). -/
def padCell (s : Str) (w : Nat) : Str := s ++ List.replicate (w - s.length) ' '

/-- One table cell as `execute_sql` prints it (src/db.rs lines 153 and 164-168):
the value left-aligned to the column width, then the separator. -/
def fmtCell (s : Str) (w : Nat) : Str := padCell s w ++ [' ', '|', ' ']

/-- The header row (src/db.rs lines 152-154). -/
def headerLine (names : List Str) (ws : List Nat) : Str :=
  (List.zipWith fmtCell names ws).flatten

/-- The separator row (src/db.rs lines 156-159): per column, `width` dashes
then three more. -/
def sepLine (ws : List Nat) : Str :=
  (ws.map (fun w => List.replicate w '-' ++ ['-', '-', '-'])).flatten

/-- One data row (src/db.rs lines 162-169). -/
def rowLine (ws : List Nat) (row : List Str) : Str :=
  (List.zipWith fmtCell row ws).flatten

/-- The full tabular output of `execute_sql` (src/db.rs lines 150-172): header
row, newline, separator row, newline, then each data row followed by a
newline. -/
def render (names : List Str) (rows : List (List Str)) : Str :=
  let ws := computeWidths names rows
  headerLine names ws ++ '\n' ::
    (sepLine ws ++ '\n' :: (rows.map (fun r => rowLine ws r ++ ['\n'])).flatten)

/-- Split on `'\n'`, keeping empty segments (so a trailing newline yields a
trailing empty segment). -/
def splitNL : Str → List Str
  | [] => [[]]
  | c :: cs =>
    if c = '\n' then [] :: splitNL cs
    else
      match splitNL cs with
      | [] => [[c]]
      | l :: ls => (c :: l) :: ls

/-- The lines of a rendered text, with Rust `str::lines` semantics: split on
newlines, a trailing newline producing no extra empty line. -/
def linesOf (s : Str) : List Str :=
  if s = [] then []
  else if s.getLast? = some '\n' then (splitNL s).dropLast else splitNL s

/-- A character list without newlines (one display line). -/
def noNL (s : Str) : Prop := ∀ c ∈ s, c ≠ '\n'

/-- The query branch's successful result text (src/db.rs lines 58-60 and
150-172): the explicit zero-row message when no rows came back, the rendered
table otherwise. -/
def queryOutput (names : List Str) (rows : List (List Str)) : Str :=
  if rows.isEmpty then strOf "Query returned 0 rows." else render names rows

/-! ## Cell decoding (src/db.rs lines 74-143) -/

/-- The Postgres column types `execute_sql` dispatches on (src/db.rs lines
74-142); `tOther` stands for any type reaching the fallback arm, carrying
the name `col.type_().name()` prints. -/
inductive PgType
  | tBOOL | tINT2 | tINT4 | tINT8 | tFLOAT4 | tFLOAT8
  | tDATE | tTIME | tTIMESTAMP | tTIMESTAMPTZ
  | tTEXT | tVARCHAR | tNAME | tNUMERIC | tUUID | tJSON | tJSONB
  | tOther (tyName : String)
deriving DecidableEq, Repr

/-- A decoded non-null cell value.  Booleans and integers render through
`to_string`; the chrono date/time values and floating-point values are kept
as their display strings (their arithmetic plays no role here). -/
inductive PgValue
  | vBool (b : Bool)
  | vInt (n : Int)
  | vFloatRepr (r : String)
  | vDate (r : String)
  | vTime (r : String)
  | vTimestamp (r : String)
  | vText (s : String)
deriving DecidableEq, Repr

/-- Rust `to_string()` on a decoded value. -/
def PgValue.render : PgValue → String
  | .vBool true => "true"
  | .vBool false => "false"
  | .vInt n => toString n
  | .vFloatRepr r => r
  | .vDate r => r
  | .vTime r => r
  | .vTimestamp r => r
  | .vText s => s

/-- The error marker of the typed arms (src/db.rs line 78 and its twins). -/
def errCell (e : String) : String := "<Err: " ++ e ++ ">"

/-- The error marker of the fallback arm (src/db.rs line 141). -/
def errCellFallback (tyName e : String) : String := "<" ++ tyName ++ ": " ++ e ++ ">"

/-- One cell of `execute_sql`'s decoding match (src/db.rs lines 74-143).
`fetch` is the outcome of `row.try_get::<_, Option<T>>(i)` for the arm's type
`T`: `Ok(Some v)` renders the value, `Ok(None)` renders `NULL`, `Err e`
renders the error marker (the fallback arm naming the type instead of
`Err`). -/
def decodeCell (ty : PgType) (fetch : Except String (Option PgValue)) : String :=
  match ty with
  | .tBOOL =>
    match fetch with
    | .ok (some v) => v.render
    | .ok none => "NULL"
    | .error e => errCell e
  | .tINT2 =>
    match fetch with
    | .ok (some v) => v.render
    | .ok none => "NULL"
    | .error e => errCell e
  | .tINT4 =>
    match fetch with
    | .ok (some v) => v.render
    | .ok none => "NULL"
    | .error e => errCell e
  | .tINT8 =>
    match fetch with
    | .ok (some v) => v.render
    | .ok none => "NULL"
    | .error e => errCell e
  | .tFLOAT4 | .tFLOAT8 =>
    match fetch with
    | .ok (some v) => v.render
    | .ok none => "NULL"
    | .error e => errCell e
  | .tDATE =>
    match fetch with
    | .ok (some v) => v.render
    | .ok none => "NULL"
    | .error e => errCell e
  | .tTIME =>
    match fetch with
    | .ok (some v) => v.render
    | .ok none => "NULL"
    | .error e => errCell e
  | .tTIMESTAMP | .tTIMESTAMPTZ =>
    match fetch with
    | .ok (some v) => v.render
    | .ok none => "NULL"
    | .error e => errCell e
  | .tTEXT | .tVARCHAR | .tNAME | .tNUMERIC | .tUUID | .tJSON | .tJSONB =>
    match fetch with
    | .ok (some v) => v.render
    | .ok none => "NULL"
    | .error e => errCell e
  | .tOther tyName =>
    match fetch with
    | .ok (some v) => v.render
    | .ok none => "NULL"
    | .error e => errCellFallback tyName e

/-! ## Application state and the script catalog (src/app.rs, src/event.rs) -/

/-- A stored script row (spec 3; declared in src/app.rs's imports from the
database module). -/
structure Script where
  id : Nat
  name : String
  content : String
deriving DecidableEq, Repr

/-- The interaction modes of src/app.rs (enum `InputMode`). -/
inductive InputMode
  | Normal
  | EditingFilename
  | ConfirmingDelete
  | RenamingScript
  | ShowHelp
  | SelectingConnection
  | AddingConnectionName
  | AddingConnectionUrl
deriving DecidableEq, Repr

/-- The application state of src/app.rs (struct `App`), with the Postgres
script table carried inline as `dbScripts` (the state behind the catalog
operations, whose database module is absent from src/), the `ListState`
selections as `Option Nat`, and the connection map as an association list. -/
structure AppM where
  dbScripts : List Script
  connections : List (String × String)
  current_connection_name : String
  new_connection_name_buffer : String
  scripts : List Script
  selected : Option Nat
  query_result : String
  query_row_count : Option Nat
  script_content_preview : String
  input_mode : InputMode
  filename_input : String
  result_scroll_x : Nat
  result_scroll_y : Nat
deriving DecidableEq, Repr

/-- `App::set_query_result` (src/app.rs lines 169-174): set the message, clear
the row count, reset both scroll offsets. -/
def set_query_result (a : AppM) (message : String) : AppM :=
  { a with query_result := message, query_row_count := none,
           result_scroll_x := 0, result_scroll_y := 0 }

/-- `App::get_selected_script` (src/app.rs lines 192-194). -/
def get_selected_script (a : AppM) : Option Script :=
  a.selected.bind (fun i => a.scripts[i]?)

/-- `App::update_preview` (src/app.rs lines 232-238). -/
def update_preview (a : AppM) : AppM :=
  match get_selected_script a with
  | some s => { a with script_content_preview := s.content }
  | none => { a with script_content_preview := "No scripts found." }

/-- Insertion into a name-sorted list (ascending by script name). -/
def insertSorted (s : Script) : List Script → List Script
  | [] => [s]
  | t :: ts => if decide (s.name ≤ t.name) then s :: t :: ts else t :: insertSorted s ts

/-- Sort scripts ascending by name (insertion sort, kernel-reducible). -/
def sortByName (l : List Script) : List Script := l.foldr insertSorted []

/-- Modelled from the spec: `get_all_scripts` lives in the database module
absent from src/; spec 4.4 says `list()` returns the scripts ordered by name
ascending. -/
def get_all_scripts (db : List Script) : List Script := sortByName db

/-- A fresh row id for an inserted script. -/
def freshId (db : List Script) : Nat := (db.map Script.id).foldr Nat.max 0 + 1

/-- Modelled from the spec: `create_script` lives in the database module
absent from src/; spec 4.4 says `create(name)` fails with `NameConflict` if
the name exists, and spec 3 says a created script has empty content. -/
def create_script (db : List Script) (name : String) :
    Except String (List Script) :=
  if db.any (fun s => s.name == name) then Except.error "NameConflict"
  else Except.ok (db ++ [{ id := freshId db, name := name, content := "" }])

/-- Modelled from the spec: `rename_script` lives in the database module
absent from src/; spec 4.4 says `rename(id, new_name)` fails with
`NameConflict` (another script already has the name) or `NotFound`. -/
def rename_script (db : List Script) (id : Nat) (newName : String) :
    Except String (List Script) :=
  if db.any (fun s => s.name == newName && s.id != id) then Except.error "NameConflict"
  else if db.all (fun s => s.id != id) then Except.error "NotFound"
  else Except.ok (db.map (fun s => if s.id == id then { s with name := newName } else s))

/-- Modelled from the spec: `delete_script` lives in the database module
absent from src/; spec 4.4 says `delete(id)` fails with `NotFound`. -/
def delete_script (db : List Script) (id : Nat) : Except String (List Script) :=
  if db.all (fun s => s.id != id) then Except.error "NotFound"
  else Except.ok (db.filter (fun s => s.id != id))

/-- The body of `App::refresh_scripts` (src/app.rs lines 109-126) given the
list `get_all_scripts` returned: store it, keep the selection only when still
in bounds, otherwise select the first entry when any exists and none when the
list is empty, then recompute the preview. -/
def refreshScriptsWith (a : AppM) (newScripts : List Script) : AppM :=
  let a1 := { a with scripts := newScripts }
  let valid : Bool :=
    match a1.selected with
    | some i => decide (i < a1.scripts.length)
    | none => false
  let a2 :=
    if valid then a1
    else if decide (a1.scripts.length ≠ 0) then { a1 with selected := some 0 }
    else { a1 with selected := none }
  update_preview a2

/-- `App::refresh_scripts` (src/app.rs lines 109-126). -/
def refresh_scripts (a : AppM) : AppM :=
  refreshScriptsWith a (get_all_scripts a.dbScripts)

/-- The selection `refresh_scripts` leaves behind, as a function of the old
selection and the new list length: kept when still in bounds, else the first
entry when any exists, else none (used to state `refreshScriptsWith_eq`). -/
def refreshSelect (sel : Option Nat) (len : Nat) : Option Nat :=
  match sel with
  | some i => if i < len then some i else if len ≠ 0 then some 0 else none
  | none => if len ≠ 0 then some 0 else none

/-- Rust `str::trim` on an owned string. -/
def trimString (s : String) : String := String.mk (trimBoth s.data)

/-- Rust `String::pop`: drop the last character. -/
def popChar (s : String) : String := String.mk s.data.dropLast

/-- The key presses the modelled fragment of `handle_key_event` inspects. -/
inductive Key
  | enter
  | esc
  | backspace
  | charKey (c : Char)
  | otherKey
deriving DecidableEq, Repr

/-- Association-list update standing for `HashMap::insert`. -/
def insertConn (l : List (String × String)) (k v : String) :
    List (String × String) :=
  if l.any (fun kv => kv.1 == k) then
    l.map (fun kv => if kv.1 == k then (k, v) else kv)
  else l ++ [(k, v)]

/-- `handle_key_event` (src/event.rs lines 38-338), restricted to the five
input modes whose transitions the verified claims are about
(`EditingFilename`, `RenamingScript`, `ConfirmingDelete`,
`AddingConnectionName`, `AddingConnectionUrl`).  The remaining modes
(`Normal`, `ShowHelp`, `SelectingConnection`) drive the editor, clipboard,
terminal and connection collaborators and are outside this model, so the
state is returned unchanged for them.  `ctrl` is whether the CONTROL
modifier is held.  The catalog calls (`create_script` etc.) act on the
inline `dbScripts` table; `save_config` (src/config.rs) is modelled from the
spec as the always-successful persistence append. -/
def handleKeyEvent (ctrl : Bool) (k : Key) (a : AppM) : AppM :=
  match a.input_mode with
  | InputMode.EditingFilename =>
    match k with
    | Key.enter =>
      let name := trimString a.filename_input
      if name = "" then
        set_query_result { a with input_mode := InputMode.Normal } "New script cancelled."
      else
        let a' :=
          match create_script a.dbScripts name with
          | Except.ok db' =>
            let a1 := set_query_result { a with dbScripts := db' }
              ("Script '" ++ name ++ "' created.")
            let a2 := refresh_scripts a1
            match a2.scripts.findIdx? (fun s : Script => s.name == name) with
            | some idx => update_preview { a2 with selected := some idx }
            | none => a2
          | Except.error e => set_query_result a ("Error creating script: " ++ e)
        { a' with input_mode := InputMode.Normal }
    | Key.esc =>
      set_query_result { a with input_mode := InputMode.Normal } "New script cancelled."
    | Key.backspace => { a with filename_input := popChar a.filename_input }
    | Key.charKey c =>
      if c = 'c' && ctrl then
        set_query_result { a with input_mode := InputMode.Normal } "New script cancelled."
      else { a with filename_input := a.filename_input.push c }
    | Key.otherKey => a
  | InputMode.RenamingScript =>
    match k with
    | Key.enter =>
      let newName := trimString a.filename_input
      if newName = "" then
        set_query_result { a with input_mode := InputMode.Normal } "Rename cancelled."
      else
        let a' :=
          match get_selected_script a with
          | some s =>
            (match rename_script a.dbScripts s.id newName with
             | Except.ok db' =>
               let a1 := set_query_result { a with dbScripts := db' } "Script renamed."
               let a2 := refresh_scripts a1
               match a2.scripts.findIdx? (fun t : Script => t.name == newName) with
               | some idx => update_preview { a2 with selected := some idx }
               | none => a2
             | Except.error e => set_query_result a ("Error renaming: " ++ e))
          | none => a
        { a' with input_mode := InputMode.Normal }
    | Key.esc =>
      set_query_result { a with input_mode := InputMode.Normal } "Rename cancelled."
    | Key.backspace => { a with filename_input := popChar a.filename_input }
    | Key.charKey c =>
      if c = 'c' && ctrl then
        set_query_result { a with input_mode := InputMode.Normal } "Rename cancelled."
      else { a with filename_input := a.filename_input.push c }
    | Key.otherKey => a
  | InputMode.ConfirmingDelete =>
    match k with
    | Key.charKey c =>
      if c = 'y' then
        let a' :=
          match get_selected_script a with
          | some s =>
            (match delete_script a.dbScripts s.id with
             | Except.ok db' =>
               refresh_scripts (set_query_result { a with dbScripts := db' }
                 ("Script '" ++ s.name ++ "' deleted."))
             | Except.error e => set_query_result a ("Error deleting script: " ++ e))
          | none => a
        { a' with input_mode := InputMode.Normal }
      else if c = 'n' then
        set_query_result { a with input_mode := InputMode.Normal } "Deletion cancelled."
      else a
    | Key.esc =>
      set_query_result { a with input_mode := InputMode.Normal } "Deletion cancelled."
    | _ => a
  | InputMode.AddingConnectionName =>
    match k with
    | Key.enter =>
      let name := trimString a.filename_input
      if name = "" then set_query_result a "Name cannot be empty."
      else if a.connections.any (fun kv => kv.1 == name) then
        set_query_result a "Connection name already exists."
      else
        { a with new_connection_name_buffer := name,
                 input_mode := InputMode.AddingConnectionUrl,
                 filename_input := "" }
    | Key.esc => { a with input_mode := InputMode.SelectingConnection }
    | Key.backspace => { a with filename_input := popChar a.filename_input }
    | Key.charKey c => { a with filename_input := a.filename_input.push c }
    | Key.otherKey => a
  | InputMode.AddingConnectionUrl =>
    match k with
    | Key.enter =>
      let url := trimString a.filename_input
      if url = "" then set_query_result a "URL cannot be empty."
      else
        let name := a.new_connection_name_buffer
        let a1 := { a with connections := insertConn a.connections name url }
        { set_query_result a1 ("Added new connection: " ++ name) with
          input_mode := InputMode.SelectingConnection }
    | Key.esc => { a with input_mode := InputMode.SelectingConnection }
    | Key.backspace => { a with filename_input := popChar a.filename_input }
    | Key.charKey c => { a with filename_input := a.filename_input.push c }
    | Key.otherKey => a
  | _ => a

/-! ## Connection switching (src/app.rs lines 80-107) -/

/-- The database collaborators `App::switch_connection` calls, as oracles:
`connect` stands for `Client::connect` (a client handle being an opaque
token), `initTable` for `init_script_table`, `fetchScripts` for
`get_all_scripts` on a given client. -/
structure DbWorld where
  connect : String → Except String Nat
  initTable : Nat → Except String Unit
  fetchScripts : Nat → Except String (List Script)

/-- The slice of `App` that `switch_connection` and its `refresh_scripts`
call touch, with the opaque client handle made explicit. -/
structure AppC where
  client : Nat
  connections : List (String × String)
  current_connection_name : String
  scripts : List Script
  selected : Option Nat
  query_result : String
  query_row_count : Option Nat
  script_content_preview : String
deriving DecidableEq, Repr

/-- `HashMap::get` on the connection map. -/
def lookupConn (l : List (String × String)) (name : String) : Option String :=
  (l.find? (fun kv => kv.1 == name)).map Prod.snd

/-- `App::refresh_scripts` (src/app.rs lines 109-126) against the oracle
world: fetch the scripts from the current client (an error propagating with
the state untouched), then the bounds-checked selection update and the
preview recomputation. -/
def refreshScriptsC (w : DbWorld) (a : AppC) : AppC × Except String Unit :=
  match w.fetchScripts a.client with
  | Except.error e => (a, Except.error e)
  | Except.ok scripts =>
    let a1 := { a with scripts := scripts }
    let valid : Bool :=
      match a1.selected with
      | some i => decide (i < a1.scripts.length)
      | none => false
    let a2 :=
      if valid then a1
      else if decide (a1.scripts.length ≠ 0) then { a1 with selected := some 0 }
      else { a1 with selected := none }
    let a3 :=
      match a2.selected.bind (fun i => a2.scripts[i]?) with
      | some s => { a2 with script_content_preview := s.content }
      | none => { a2 with script_content_preview := "No scripts found." }
    (a3, Except.ok ())

/-- `App::switch_connection` (src/app.rs lines 80-107): look the name up,
connect, initialise the script table on the new client, and only then swap
the client handle, set the name and message, and reload the scripts; every
failure before the swap returns the error with the state untouched. -/
def switch_connection (w : DbWorld) (a : AppC) (name : String) :
    AppC × Except String Unit :=
  match lookupConn a.connections name with
  | some url =>
    (match w.connect url with
     | Except.ok newClient =>
       (match w.initTable newClient with
        | Except.error e => (a, Except.error ("Connected, but failed to init table: " ++ e))
        | Except.ok _ =>
          let a1 := { a with client := newClient,
                             current_connection_name := name,
                             query_result := "Switched to database: " ++ name,
                             query_row_count := none }
          refreshScriptsC w a1)
     | Except.error e =>
       (a, Except.error ("Failed to connect to '" ++ name ++ "': " ++ e)))
  | none => (a, Except.error "Connection name not found.")

/-! ## Concrete states used by the closed example theorems -/

/-- A one-script application state: script `"x"` stored, listed and
selected, the session sitting in `Normal` mode. -/
def exApp : AppM :=
  { dbScripts := [{ id := 1, name := "x", content := "SELECT 1" }]
    connections := [("local", "postgresql://localhost/postgres")]
    current_connection_name := "local"
    new_connection_name_buffer := ""
    scripts := [{ id := 1, name := "x", content := "SELECT 1" }]
    selected := some 0
    query_result := ""
    query_row_count := none
    script_content_preview := "SELECT 1"
    input_mode := InputMode.Normal
    filename_input := ""
    result_scroll_x := 0
    result_scroll_y := 0 }

/-- The connection-slice state used by the switching examples. -/
def exAppC : AppC :=
  { client := 7
    connections := [("local", "url-a"), ("prod", "url-b")]
    current_connection_name := "local"
    scripts := [{ id := 1, name := "x", content := "SELECT 1" }]
    selected := some 0
    query_result := ""
    query_row_count := none
    script_content_preview := "SELECT 1" }

/-- A world whose connections always fail. -/
def exWorldDown : DbWorld :=
  { connect := fun _ => Except.error "connection refused"
    initTable := fun _ => Except.ok ()
    fetchScripts := fun _ => Except.ok [] }

/-! ## Theorems -/

theorem errCell_head (e : String) : (errCell e).data.head? = some '<' := by
  simp [errCell, String.data_append]

theorem errCellFallback_head (t e : String) :
    (errCellFallback t e).data.head? = some '<' := by
  simp [errCellFallback, String.data_append]

/-- C10: in every typed decode arm of the query cell decoder (boolean,
integers, floats, date, time, timestamp, text-like, and the generic
fallback), a database NULL (`Ok(None)` from `try_get`) renders as the literal
string `NULL`, which is neither empty nor either error marker, so NULL never
takes the per-cell error path. -/
theorem C10_null_decodes_as_NULL :
    ∀ ty : PgType,
      decodeCell ty (Except.ok none) = "NULL"
      ∧ decodeCell ty (Except.ok none) ≠ ""
      ∧ (∀ e, decodeCell ty (Except.ok none) ≠ errCell e)
      ∧ (∀ t e, decodeCell ty (Except.ok none) ≠ errCellFallback t e) := by
  intro ty
  have hdec : decodeCell ty (Except.ok none) = "NULL" := by
    cases ty <;> rfl
  refine ⟨hdec, ?_, ?_, ?_⟩
  · rw [hdec]; decide
  · intro e h
    rw [hdec] at h
    have h2 : ("NULL" : String).data.head? = (errCell e).data.head? := by rw [h]
    rw [errCell_head] at h2
    exact absurd h2 (by decide)
  · intro t e h
    rw [hdec] at h
    have h2 : ("NULL" : String).data.head? = (errCellFallback t e).data.head? := by rw [h]
    rw [errCellFallback_head] at h2
    exact absurd h2 (by decide)

/-- C2 counterexample: on the code as it stands, a zero-row query result goes
through `set_query_result`, which leaves `query_row_count = None`, not
`Some(0)` as the claim states. -/
theorem C2_zero_rows_counterexample :
    (set_query_result exApp (String.mk (queryOutput [strOf "id"] []))).query_row_count = none
    ∧ (none : Option Nat) ≠ some 0 := by
  exact ⟨rfl, by decide⟩

/-- C2 (amended): a query returning zero rows produces the explicit status
message `Query returned 0 rows.` rather than a header-only table, and after
`set_query_result` stores it the row count is `None` (the field is cleared),
not `Some(0)`. -/
theorem C2_zero_rows_amended :
    ∀ (a : AppM) (names : List Str),
      queryOutput names [] = strOf "Query returned 0 rows."
      ∧ (set_query_result a (String.mk (queryOutput names []))).query_result
          = "Query returned 0 rows."
      ∧ (set_query_result a (String.mk (queryOutput names []))).query_row_count = none := by
  intro a names
  exact ⟨rfl, rfl, rfl⟩

/-- C4 counterexample: Esc in `AddingConnectionName` moves to
`SelectingConnection`, not to `Normal` as the claim states (and sets no
cancellation message). -/
theorem C4_escape_key_counterexample :
    (handleKeyEvent false Key.esc
        { exApp with input_mode := InputMode.AddingConnectionName }).input_mode
      = InputMode.SelectingConnection
    ∧ InputMode.SelectingConnection ≠ InputMode.Normal := by
  exact ⟨rfl, by decide⟩

/-- C4 (amended): Esc from `EditingFilename` or `RenamingScript` returns to
`Normal` with the respective cancellation message and no other state change
(in particular no catalog side effect); Esc from `AddingConnectionName` or
`AddingConnectionUrl` returns to the `SelectingConnection` chooser with no
other state change and no message set. -/
theorem C4_escape_key_amended :
    ∀ (ctrl : Bool) (a : AppM),
      (a.input_mode = InputMode.EditingFilename →
        handleKeyEvent ctrl Key.esc a
          = set_query_result { a with input_mode := InputMode.Normal } "New script cancelled.")
      ∧ (a.input_mode = InputMode.RenamingScript →
        handleKeyEvent ctrl Key.esc a
          = set_query_result { a with input_mode := InputMode.Normal } "Rename cancelled.")
      ∧ (a.input_mode = InputMode.AddingConnectionName →
        handleKeyEvent ctrl Key.esc a = { a with input_mode := InputMode.SelectingConnection })
      ∧ (a.input_mode = InputMode.AddingConnectionUrl →
        handleKeyEvent ctrl Key.esc a = { a with input_mode := InputMode.SelectingConnection }) := by
  intro ctrl a
  refine ⟨?_, ?_, ?_, ?_⟩ <;> intro h <;> simp [handleKeyEvent, h]

theorem C4_escape_key_amended_witness :
    handleKeyEvent false Key.esc { exApp with input_mode := InputMode.EditingFilename }
      = set_query_result
          { { exApp with input_mode := InputMode.EditingFilename } with
            input_mode := InputMode.Normal }
          "New script cancelled." :=
  (C4_escape_key_amended false { exApp with input_mode := InputMode.EditingFilename }).1 rfl

theorem refreshScriptsC_keeps_client (w : DbWorld) (x : AppC) :
    (refreshScriptsC w x).1.client = x.client
    ∧ (refreshScriptsC w x).1.current_connection_name = x.current_connection_name := by
  unfold refreshScriptsC
  cases h : w.fetchScripts x.client with
  | error e => simp
  | ok scripts =>
    dsimp only
    constructor <;>
      (split <;> (first | rfl | (split <;> (first | rfl | (split <;> rfl)))))

/-- C5: replacing the active connection is atomic for the caller: an unknown
name, a failed `Client::connect`, or a failed `init_script_table` all leave
the whole prior state — client handle, connection name, loaded scripts —
untouched, and only after both steps succeed is the handle swapped and the
connection name updated. -/
theorem C5_switch_connection_atomic :
    ∀ (w : DbWorld) (a : AppC) (name : String),
      (lookupConn a.connections name = none →
        switch_connection w a name = (a, Except.error "Connection name not found."))
      ∧ (∀ url e, lookupConn a.connections name = some url →
          w.connect url = Except.error e → (switch_connection w a name).1 = a)
      ∧ (∀ url c e, lookupConn a.connections name = some url →
          w.connect url = Except.ok c → w.initTable c = Except.error e →
          (switch_connection w a name).1 = a)
      ∧ (∀ url c, lookupConn a.connections name = some url →
          w.connect url = Except.ok c → w.initTable c = Except.ok () →
          (switch_connection w a name).1.client = c
          ∧ (switch_connection w a name).1.current_connection_name = name) := by
  intro w a name
  refine ⟨?_, ?_, ?_, ?_⟩
  · intro h; simp [switch_connection, h]
  · intro url e h1 h2; simp [switch_connection, h1, h2]
  · intro url c e h1 h2 h3; simp [switch_connection, h1, h2, h3]
  · intro url c h1 h2 h3
    have hr := refreshScriptsC_keeps_client w
      { a with client := c, current_connection_name := name,
               query_result := "Switched to database: " ++ name, query_row_count := none }
    simp only [switch_connection, h1, h2, h3]
    exact ⟨hr.1, hr.2⟩

theorem C5_switch_connection_atomic_witness :
    (switch_connection exWorldDown exAppC "prod").1 = exAppC :=
  (C5_switch_connection_atomic exWorldDown exAppC "prod").2.1 "url-b" "connection refused"
    rfl rfl

theorem update_preview_fields (x : AppM) :
    (update_preview x).scripts = x.scripts
    ∧ (update_preview x).selected = x.selected
    ∧ (update_preview x).script_content_preview =
        (match x.selected.bind (fun i => x.scripts[i]?) with
         | some s => s.content
         | none => "No scripts found.") := by
  unfold update_preview
  cases h : get_selected_script x with
  | some s =>
    refine ⟨rfl, rfl, ?_⟩
    unfold get_selected_script at h
    rw [h]
  | none =>
    refine ⟨rfl, rfl, ?_⟩
    unfold get_selected_script at h
    rw [h]

theorem refreshScriptsWith_eq (a : AppM) (ns : List Script) :
    refreshScriptsWith a ns
      = update_preview
          { a with scripts := ns, selected := refreshSelect a.selected ns.length } := by
  unfold refreshScriptsWith refreshSelect
  cases hsel : a.selected with
  | none =>
    by_cases hlen : ns.length ≠ 0 <;> simp [hsel, hlen]
  | some i =>
    by_cases hi : i < ns.length
    · simp [hsel, hi]
    · by_cases hlen : ns.length ≠ 0 <;> simp [hsel, hi, hlen]

theorem refreshSelect_lt (sel : Option Nat) (len j : Nat) :
    refreshSelect sel len = some j → j < len := by
  intro h
  cases sel with
  | none =>
    simp only [refreshSelect] at h
    split at h
    · injection h with h2; omega
    · exact absurd h (by simp)
  | some i =>
    simp only [refreshSelect] at h
    split at h
    · injection h with h2; omega
    · split at h
      · injection h with h2; omega
      · exact absurd h (by simp)

/-- C8: every refresh stores the recomputed list, keeps the old selection
index exactly when it is still below the new length, otherwise selects index
0 when the catalog is non-empty and nothing when it is empty, recomputes the
preview for the resulting selection, and in all cases re-establishes the
invariant that a present selection index is below the catalog length. -/
theorem C8_refresh_selection :
    ∀ (a : AppM) (ns : List Script),
      (refreshScriptsWith a ns).scripts = ns
      ∧ (∀ i, a.selected = some i → i < ns.length →
          (refreshScriptsWith a ns).selected = some i)
      ∧ ((∀ i, a.selected = some i → ns.length ≤ i) →
          (ns ≠ [] → (refreshScriptsWith a ns).selected = some 0)
          ∧ (ns = [] → (refreshScriptsWith a ns).selected = none))
      ∧ (refreshScriptsWith a ns).script_content_preview =
          (match (refreshScriptsWith a ns).selected.bind (fun i => ns[i]?) with
           | some s => s.content
           | none => "No scripts found.")
      ∧ (∀ j, (refreshScriptsWith a ns).selected = some j → j < ns.length) := by
  intro a ns
  rw [refreshScriptsWith_eq]
  have h := update_preview_fields
    { a with scripts := ns, selected := refreshSelect a.selected ns.length }
  refine ⟨h.1, ?_, ?_, ?_, ?_⟩
  · intro i hi hlt
    rw [h.2.1]
    simp [refreshSelect, hi, hlt]
  · intro hout
    constructor
    · intro hne
      rw [h.2.1]
      have hlen : ns.length ≠ 0 := by
        simpa [List.length_eq_zero] using hne
      cases hsel : a.selected with
      | none => simp [refreshSelect, hlen]
      | some i =>
        have hle := hout i hsel
        simp [refreshSelect, hlen, Nat.not_lt.mpr hle]
    · intro hnil
      subst hnil
      rw [h.2.1]
      cases hsel : a.selected with
      | none => simp [refreshSelect]
      | some i => simp [refreshSelect]
  · rw [h.2.2, h.2.1]
  · intro j hj
    rw [h.2.1] at hj
    exact refreshSelect_lt _ _ _ hj

theorem C8_refresh_selection_witness :
    (refreshScriptsWith exApp []).selected = none :=
  ((C8_refresh_selection exApp []).2.2.1 (fun i hi => by simp)).2 rfl

/-- C3 (amended): committing a duplicate name from `EditingFilename` (create)
or `RenamingScript` (rename) rejects the mutation — the catalog is unchanged
and an error message is set — but the session returns to `Normal`, it does
not remain in the input state to retry. -/
theorem C3_duplicate_name_amended :
    ∀ a : AppM,
      (a.input_mode = InputMode.EditingFilename →
        trimString a.filename_input ≠ "" →
        a.dbScripts.any (fun s => s.name == trimString a.filename_input) = true →
        (handleKeyEvent false Key.enter a).dbScripts = a.dbScripts
        ∧ (handleKeyEvent false Key.enter a).scripts = a.scripts
        ∧ (handleKeyEvent false Key.enter a).input_mode = InputMode.Normal
        ∧ (handleKeyEvent false Key.enter a).query_result
            = "Error creating script: NameConflict")
      ∧ (∀ s : Script, a.input_mode = InputMode.RenamingScript →
        get_selected_script a = some s →
        trimString a.filename_input ≠ "" →
        a.dbScripts.any (fun t => t.name == trimString a.filename_input && t.id != s.id)
            = true →
        (handleKeyEvent false Key.enter a).dbScripts = a.dbScripts
        ∧ (handleKeyEvent false Key.enter a).scripts = a.scripts
        ∧ (handleKeyEvent false Key.enter a).input_mode = InputMode.Normal
        ∧ (handleKeyEvent false Key.enter a).query_result
            = "Error renaming: NameConflict") := by
  intro a
  constructor
  · intro hmode hne hdup
    have hcs : create_script a.dbScripts (trimString a.filename_input)
        = Except.error "NameConflict" := by
      simp [create_script, hdup]
    simp [handleKeyEvent, hmode, hne, hcs, set_query_result]
  · intro s hmode hsel hne hdup
    have hrs : rename_script a.dbScripts s.id (trimString a.filename_input)
        = Except.error "NameConflict" := by
      simp [rename_script, hdup]
    simp [handleKeyEvent, hmode, hne, hsel, hrs, set_query_result]

/-- C9 (amended): confirming deletion of the sole, selected script empties the
catalog and leaves the selection `None`, and the preview is replaced by the
placeholder text `No scripts found.` — it is not cleared to the empty
string. -/
theorem C9_delete_sole_script_amended :
    ∀ (a : AppM) (s : Script),
      a.input_mode = InputMode.ConfirmingDelete →
      a.dbScripts = [s] → a.scripts = [s] → a.selected = some 0 →
      (handleKeyEvent false (Key.charKey 'y') a).selected = none
      ∧ (handleKeyEvent false (Key.charKey 'y') a).script_content_preview
          = "No scripts found."
      ∧ (handleKeyEvent false (Key.charKey 'y') a).scripts = [] := by
  intro a s hmode hdb hscripts hsel
  have hgs : get_selected_script a = some s := by
    simp [get_selected_script, hsel, hscripts]
  have hds : delete_script a.dbScripts s.id = Except.ok [] := by
    simp [delete_script, hdb]
  have hmain : handleKeyEvent false (Key.charKey 'y') a
      = { refresh_scripts (set_query_result { a with dbScripts := [] }
            ("Script '" ++ s.name ++ "' deleted.")) with
          input_mode := InputMode.Normal } := by
    simp [handleKeyEvent, hmode, hgs, hds]
  rw [hmain]
  have hrw : refresh_scripts (set_query_result { a with dbScripts := [] }
        ("Script '" ++ s.name ++ "' deleted."))
      = update_preview
          { set_query_result { a with dbScripts := [] }
              ("Script '" ++ s.name ++ "' deleted.") with
            scripts := [],
            selected := refreshSelect (set_query_result { a with dbScripts := [] }
              ("Script '" ++ s.name ++ "' deleted.")).selected ([] : List Script).length } :=
    refreshScriptsWith_eq _ []
  have hselX : (set_query_result { a with dbScripts := [] }
      ("Script '" ++ s.name ++ "' deleted.")).selected = some 0 := hsel
  have hup := update_preview_fields
    { set_query_result { a with dbScripts := [] }
        ("Script '" ++ s.name ++ "' deleted.") with
      scripts := [],
      selected := refreshSelect (set_query_result { a with dbScripts := [] }
        ("Script '" ++ s.name ++ "' deleted.")).selected ([] : List Script).length }
  refine ⟨?_, ?_, ?_⟩
  · show (refresh_scripts _).selected = none
    rw [hrw, hup.2.1]
    show refreshSelect _ _ = none
    rw [hselX]
    rfl
  · show (refresh_scripts _).script_content_preview = _
    rw [hrw, hup.2.2]
    have hn : ({ set_query_result { a with dbScripts := [] }
        ("Script '" ++ s.name ++ "' deleted.") with
      scripts := ([] : List Script),
      selected := refreshSelect (set_query_result { a with dbScripts := [] }
        ("Script '" ++ s.name ++ "' deleted.")).selected ([] : List Script).length } : AppM).selected
        = none := by
      show refreshSelect _ _ = none
      rw [hselX]
      rfl
    rw [hn]
    rfl
  · show (refresh_scripts _).scripts = []
    rw [hrw, hup.1]

/-- C3 counterexample: committing the duplicate name `x` from the create
input state lands in `Normal`, not back in `EditingFilename` as the claim
states. -/
theorem C3_duplicate_name_counterexample :
    (handleKeyEvent false Key.enter
        { exApp with input_mode := InputMode.EditingFilename,
                     filename_input := "x" }).input_mode = InputMode.Normal
    ∧ InputMode.Normal ≠ InputMode.EditingFilename := by
  exact ⟨rfl, by decide⟩

theorem C3_duplicate_name_amended_witness :
    (handleKeyEvent false Key.enter
        { exApp with input_mode := InputMode.EditingFilename,
                     filename_input := "x" }).query_result
      = "Error creating script: NameConflict" :=
  ((C3_duplicate_name_amended
      { exApp with input_mode := InputMode.EditingFilename, filename_input := "x" }).1
    rfl (by decide) (by decide)).2.2.2

/-- C9 counterexample: after deleting the sole selected script the preview
holds the placeholder `No scripts found.`, not the cleared (empty) text the
claim states. -/
theorem C9_delete_sole_script_counterexample :
    (handleKeyEvent false (Key.charKey 'y')
        { exApp with input_mode := InputMode.ConfirmingDelete }).script_content_preview
      = "No scripts found."
    ∧ "No scripts found." ≠ "" := by
  exact ⟨rfl, by decide⟩

theorem C9_delete_sole_script_amended_witness :
    (handleKeyEvent false (Key.charKey 'y')
        { exApp with input_mode := InputMode.ConfirmingDelete }).selected = none :=
  (C9_delete_sole_script_amended
      { exApp with input_mode := InputMode.ConfirmingDelete }
      { id := 1, name := "x", content := "SELECT 1" }
      rfl rfl rfl rfl).1

theorem computeWidths_eq (names : List Str) (rows : List (List Str)) :
    computeWidths names rows = widthsFrom (names.map List.length) rows := rfl

theorem widthsFrom_cons (init : List Nat) (r : List Str) (rs : List (List Str)) :
    widthsFrom init (r :: rs)
      = widthsFrom (List.zipWith Nat.max init (r.map List.length)) rs := rfl

theorem widthsFrom_length (rows : List (List Str)) :
    ∀ init : List Nat, (∀ r ∈ rows, r.length = init.length) →
      (widthsFrom init rows).length = init.length := by
  induction rows with
  | nil => intro init h; rfl
  | cons r rs ih =>
    intro init h
    have hr : r.length = init.length := h r (List.mem_cons_self _ _)
    have hlen1 : (List.zipWith Nat.max init (r.map List.length)).length = init.length := by
      simp [hr]
    rw [widthsFrom_cons, ih _ ?_, hlen1]
    intro r' hr'
    rw [hlen1]
    exact h r' (List.mem_cons_of_mem _ hr')

theorem widthsFrom_ge_init (rows : List (List Str)) :
    ∀ init : List Nat, (∀ r ∈ rows, r.length = init.length) →
    ∀ (i : Nat) (hi : i < init.length) (hf : i < (widthsFrom init rows).length),
      init[i] ≤ (widthsFrom init rows)[i] := by
  induction rows with
  | nil => intro init h i hi hf; exact Nat.le_refl _
  | cons r rs ih =>
    intro init h i hi hf
    have hr : r.length = init.length := h r (List.mem_cons_self _ _)
    have hlen1 : (List.zipWith Nat.max init (r.map List.length)).length = init.length := by
      simp [hr]
    have hrest : ∀ r' ∈ rs, r'.length = (List.zipWith Nat.max init (r.map List.length)).length := by
      intro r' hr'
      rw [hlen1]
      exact h r' (List.mem_cons_of_mem _ hr')
    have hi1 : i < (List.zipWith Nat.max init (r.map List.length)).length := by
      rw [hlen1]; exact hi
    have hf1 : i < (widthsFrom (List.zipWith Nat.max init (r.map List.length)) rs).length := by
      rw [← widthsFrom_cons]; exact hf
    have step1 : init[i] ≤ (List.zipWith Nat.max init (r.map List.length))[i] := by
      rw [List.getElem_zipWith]
      exact Nat.le_max_left _ _
    have step2 := ih _ hrest i hi1 hf1
    exact Nat.le_trans step1 step2

theorem widthsFrom_row (rows : List (List Str)) :
    ∀ init : List Nat, (∀ r ∈ rows, r.length = init.length) →
    ∀ r ∈ rows, ∀ (i : Nat) (hi : i < r.length)
      (hf : i < (widthsFrom init rows).length),
      (r[i]).length ≤ (widthsFrom init rows)[i] := by
  induction rows with
  | nil => intro init h r hr; exact absurd hr (List.not_mem_nil r)
  | cons r0 rs ih =>
    intro init h r hr i hi hf
    have hr0 : r0.length = init.length := h r0 (List.mem_cons_self _ _)
    have hlen1 : (List.zipWith Nat.max init (r0.map List.length)).length = init.length := by
      simp [hr0]
    have hrest : ∀ r' ∈ rs, r'.length = (List.zipWith Nat.max init (r0.map List.length)).length := by
      intro r' hr'
      rw [hlen1]
      exact h r' (List.mem_cons_of_mem _ hr')
    rcases List.mem_cons.mp hr with hEq | hMem
    · subst hEq
      have hi1 : i < (List.zipWith Nat.max init (r.map List.length)).length := by
        rw [hlen1, ← hr0]; exact hi
      have hf1 : i < (widthsFrom (List.zipWith Nat.max init (r.map List.length)) rs).length := by
        rw [← widthsFrom_cons]; exact hf
      have step1 : (r[i]).length ≤ (List.zipWith Nat.max init (r.map List.length))[i] := by
        rw [List.getElem_zipWith]
        simp only [List.getElem_map]
        exact Nat.le_max_right _ _
      have step2 := widthsFrom_ge_init rs _ hrest i hi1 hf1
      exact Nat.le_trans step1 step2
    · have hf1 : i < (widthsFrom (List.zipWith Nat.max init (r0.map List.length)) rs).length := by
        rw [← widthsFrom_cons]; exact hf
      exact ih _ hrest r hMem i hi hf1

/-- C6: every computed column width is at least the column header's length
and at least the length of every cell in that column. -/
theorem C6_column_widths :
    ∀ (names : List Str) (rows : List (List Str)),
      (∀ r ∈ rows, r.length = names.length) →
      (computeWidths names rows).length = names.length
      ∧ (∀ (i : Nat) (h1 : i < names.length)
          (h2 : i < (computeWidths names rows).length),
          (names[i]).length ≤ (computeWidths names rows)[i])
      ∧ (∀ r ∈ rows, ∀ (i : Nat) (h1 : i < r.length)
          (h2 : i < (computeWidths names rows).length),
          (r[i]).length ≤ (computeWidths names rows)[i]) := by
  intro names rows h
  have hinit : ∀ r ∈ rows, r.length = (names.map List.length).length := by
    simpa using h
  refine ⟨?_, ?_, ?_⟩
  · have := widthsFrom_length rows (names.map List.length) hinit
    rw [computeWidths_eq]
    simpa using this
  · intro i h1 h2
    have h1m : i < (names.map List.length).length := by simpa using h1
    have h2m : i < (widthsFrom (names.map List.length) rows).length := h2
    have hgi := widthsFrom_ge_init rows (names.map List.length) hinit i h1m h2m
    have hm : (names.map List.length)[i] = (names[i]).length := by
      simp
    rw [hm] at hgi
    exact hgi
  · intro r hr i h1 h2
    exact widthsFrom_row rows (names.map List.length) hinit r hr i h1 h2

theorem C6_column_widths_witness :
    (strOf "id").length
      ≤ (computeWidths [strOf "id"] [[strOf "abc"]]).get ⟨0, by decide⟩ := by
  have h := (C6_column_widths [strOf "id"] [[strOf "abc"]] (by decide)).2.1 0
    (by decide) (by decide)
  simpa [List.get_eq_getElem] using h

theorem splitNL_ne_nil (s : Str) : splitNL s ≠ [] := by
  induction s with
  | nil => simp [splitNL]
  | cons c cs ih =>
    simp only [splitNL]
    split
    · simp
    · cases h : splitNL cs with
      | nil => simp
      | cons l ls => simp

theorem splitNL_append_noNL : ∀ (u v : Str), noNL u →
    splitNL (u ++ '\n' :: v) = u :: splitNL v := by
  intro u
  induction u with
  | nil => intro v hu; simp [splitNL]
  | cons c cu ih =>
    intro v hu
    have hc : c ≠ '\n' := hu c (by simp)
    have hcu : noNL cu := fun d hd => hu d (by simp [hd])
    simp only [List.cons_append, splitNL]
    rw [if_neg hc]
    simp only [List.append_eq]
    rw [ih v hcu]

theorem noNL_append {a b : Str} (ha : noNL a) (hb : noNL b) : noNL (a ++ b) := by
  intro c hc
  rcases List.mem_append.mp hc with h | h
  · exact ha c h
  · exact hb c h

theorem noNL_replicate (n : Nat) (c : Char) (h : c ≠ '\n') :
    noNL (List.replicate n c) := by
  intro d hd
  rw [List.eq_of_mem_replicate hd]
  exact h

theorem noNL_fmtCell {s : Str} (hs : noNL s) (w : Nat) : noNL (fmtCell s w) := by
  unfold fmtCell padCell
  refine noNL_append (noNL_append hs ?_) ?_
  · exact noNL_replicate _ _ (by decide)
  · intro d hd
    simp only [List.mem_cons, List.not_mem_nil, or_false] at hd
    rcases hd with h | h | h <;> (subst h; decide)

theorem noNL_zipflat : ∀ (xs : List Str) (ws : List Nat), (∀ s ∈ xs, noNL s) →
    noNL ((List.zipWith fmtCell xs ws).flatten) := by
  intro xs
  induction xs with
  | nil => intro ws h; simp [noNL]
  | cons x xt ih =>
    intro ws h
    cases ws with
    | nil => simp [noNL]
    | cons w wt =>
      simp only [List.zipWith_cons_cons, List.flatten_cons]
      exact noNL_append (noNL_fmtCell (h x (by simp)) w)
        (ih wt (fun s hs => h s (by simp [hs])))

theorem noNL_sep (ws : List Nat) : noNL (sepLine ws) := by
  unfold sepLine
  induction ws with
  | nil => simp [noNL]
  | cons w wt ih =>
    simp only [List.map_cons, List.flatten_cons]
    refine noNL_append (noNL_append (noNL_replicate _ _ (by decide)) ?_) ih
    intro d hd
    simp only [List.mem_cons, List.not_mem_nil, or_false] at hd
    rcases hd with h | h | h <;> (subst h; decide)

theorem splitNL_rowsflat (ws : List Nat) : ∀ rows : List (List Str),
    (∀ r ∈ rows, noNL (rowLine ws r)) →
    splitNL ((rows.map (fun r => rowLine ws r ++ ['\n'])).flatten)
      = rows.map (rowLine ws) ++ [[]] := by
  intro rows
  induction rows with
  | nil => intro h; simp [splitNL]
  | cons r rt ih =>
    intro h
    simp only [List.map_cons, List.flatten_cons, List.append_assoc,
      List.singleton_append]
    rw [splitNL_append_noNL _ _ (h r (by simp))]
    rw [ih (fun r' hr' => h r' (by simp [hr']))]
    simp

theorem rows_flat_last (ws : List Nat) : ∀ rows : List (List Str),
    ((rows.map (fun r => rowLine ws r ++ ['\n'])).flatten).getLast? = some '\n'
    ∨ (rows.map (fun r => rowLine ws r ++ ['\n'])).flatten = [] := by
  intro rows
  induction rows with
  | nil => right; rfl
  | cons r rt ih =>
    left
    simp only [List.map_cons, List.flatten_cons]
    rcases ih with h | h
    · rw [List.getLast?_append, h]
      rfl
    · rw [h, List.append_nil, List.getLast?_append]
      rfl

theorem render_ne_nil (names : List Str) (rows : List (List Str)) :
    render names rows ≠ [] := by
  unfold render
  intro h
  have := congrArg List.length h
  simp at this

theorem render_getLast (names : List Str) (rows : List (List Str)) :
    (render names rows).getLast? = some '\n' := by
  unfold render
  have hshape :
      headerLine names (computeWidths names rows) ++ '\n' ::
        (sepLine (computeWidths names rows) ++ '\n' ::
          (rows.map (fun r => rowLine (computeWidths names rows) r ++ ['\n'])).flatten)
      = ((headerLine names (computeWidths names rows) ++
            '\n' :: sepLine (computeWidths names rows)) ++ ['\n'])
        ++ (rows.map (fun r => rowLine (computeWidths names rows) r ++ ['\n'])).flatten := by
    simp
  rw [hshape, List.getLast?_append]
  rcases rows_flat_last (computeWidths names rows) rows with h | h
  · rw [h]
    rfl
  · rw [h]
    simp only [List.getLast?_nil, Option.none_or]
    rw [List.getLast?_append]
    rfl

/-- C7 (amended): provided no column name and no rendered cell contains a
newline character, rendering produces exactly `2 + |R|` lines — the header
row, a separator row of `width + 3` dashes per column, then one identically
formatted line per data row.  (A cell whose text contains a newline adds
display lines, see the counterexample.) -/
theorem C7_render_lines_amended :
    ∀ (names : List Str) (rows : List (List Str)),
      (∀ s ∈ names, noNL s) → (∀ r ∈ rows, ∀ s ∈ r, noNL s) →
      linesOf (render names rows)
        = headerLine names (computeWidths names rows)
            :: sepLine (computeWidths names rows)
            :: rows.map (rowLine (computeWidths names rows))
      ∧ (linesOf (render names rows)).length = 2 + rows.length
      ∧ sepLine (computeWidths names rows)
          = ((computeWidths names rows).map
              (fun w => List.replicate (w + 3) '-')).flatten := by
  intro names rows hn hr
  have hhead : noNL (headerLine names (computeWidths names rows)) :=
    noNL_zipflat names _ hn
  have hrowsNL : ∀ r ∈ rows, noNL (rowLine (computeWidths names rows) r) :=
    fun r hrm => noNL_zipflat r _ (hr r hrm)
  have hsplit : splitNL (render names rows)
      = headerLine names (computeWidths names rows)
        :: sepLine (computeWidths names rows)
        :: (rows.map (rowLine (computeWidths names rows)) ++ [[]]) := by
    unfold render
    rw [splitNL_append_noNL _ _ hhead]
    rw [splitNL_append_noNL _ _ (noNL_sep (computeWidths names rows))]
    rw [splitNL_rowsflat (computeWidths names rows) rows hrowsNL]
  have hlines : linesOf (render names rows)
      = headerLine names (computeWidths names rows)
        :: sepLine (computeWidths names rows)
        :: rows.map (rowLine (computeWidths names rows)) := by
    unfold linesOf
    rw [if_neg (render_ne_nil names rows), if_pos (render_getLast names rows)]
    rw [hsplit]
    rw [show headerLine names (computeWidths names rows)
          :: sepLine (computeWidths names rows)
          :: (rows.map (rowLine (computeWidths names rows)) ++ [[]])
        = (headerLine names (computeWidths names rows)
            :: sepLine (computeWidths names rows)
            :: rows.map (rowLine (computeWidths names rows))) ++ [[]] from by simp]
    exact List.dropLast_concat
  refine ⟨hlines, ?_, ?_⟩
  · rw [hlines]
    simp
    omega
  · unfold sepLine
    have hfun : (fun w => List.replicate w '-' ++ ['-', '-', '-'])
        = (fun w => List.replicate (w + 3) '-') := by
      funext w
      rw [List.replicate_add]
      rfl
    rw [hfun]

/-- C7 counterexample: with one column and one row whose sole cell is the
two-line text `a\nb`, the rendered output has 4 display lines, not
`2 + 1 = 3` as the claim states for every row set. -/
theorem C7_render_lines_counterexample :
    (linesOf (render [strOf "c"] [[strOf "a\nb"]])).length ≠ 2 + 1 := by
  decide

theorem C7_render_lines_amended_witness :
    (linesOf (render [strOf "c"] [[strOf "ab"]])).length = 2 + 1 :=
  (C7_render_lines_amended [strOf "c"] [[strOf "ab"]]
    (by simp only [noNL]; decide) (by simp only [noNL]; decide)).2.1

theorem findCh_cons_of_ne (c d : Char) (tl : Str) (h : (d == c) = false) :
    findCh c (d :: tl) = (findCh c tl).map (· + 1) := by
  simp [findCh, h]

theorem findCh_append (u v : Str) (h : ∀ c ∈ u, (c == '\n') = false) :
    findCh '\n' (u ++ '\n' :: v) = some u.length := by
  induction u with
  | nil => simp [findCh]
  | cons c cu ih =>
    have hc := h c (by simp)
    rw [List.cons_append, findCh_cons_of_ne _ _ _ hc,
      ih (fun d hd => h d (by simp [hd]))]
    rfl

theorem findCh_none (t : Str) (h : ∀ c ∈ t, (c == '\n') = false) :
    findCh '\n' t = none := by
  induction t with
  | nil => rfl
  | cons c cu ih =>
    rw [findCh_cons_of_ne _ _ _ (h c (by simp)), ih (fun d hd => h d (by simp [hd]))]
    rfl

theorem findSub_cons_of_not (pat : Str) (c : Char) (tl : Str)
    (h : pat.isPrefixOf (c :: tl) = false) :
    findSub pat (c :: tl) = (findSub pat tl).map (· + 1) := by
  simp [findSub, h]

theorem isPrefixOf_dd (t : Str) (h : (['-', '-'] : Str).isPrefixOf t = true) :
    ∃ u, t = '-' :: '-' :: u := by
  cases t with
  | nil => simp [List.isPrefixOf] at h
  | cons a tl =>
    cases tl with
    | nil => simp [List.isPrefixOf] at h
    | cons b u =>
      simp only [List.isPrefixOf, Bool.and_eq_true, beq_iff_eq] at h
      exact ⟨u, by rw [← h.1, ← h.2.1]⟩

theorem isPrefixOf_bc (t : Str) (h : (['/', '*'] : Str).isPrefixOf t = true) :
    ∃ u, t = '/' :: '*' :: u := by
  cases t with
  | nil => simp [List.isPrefixOf] at h
  | cons a tl =>
    cases tl with
    | nil => simp [List.isPrefixOf] at h
    | cons b u =>
      simp only [List.isPrefixOf, Bool.and_eq_true, beq_iff_eq] at h
      exact ⟨u, by rw [← h.1, ← h.2.1]⟩

theorem trimStart_length_le (s : Str) : (trimStart s).length ≤ s.length :=
  (List.dropWhile_sublist isWS).length_le

theorem stripLoopF_irrel : ∀ f g : Nat, ∀ s : Str,
    s.length < f → s.length < g → stripLoopF f s = stripLoopF g s := by
  intro f
  induction f with
  | zero => intro g s hf; exact absurd hf (Nat.not_lt_zero _)
  | succ f ih =>
    intro g s hf hg
    cases g with
    | zero => exact absurd hg (Nat.not_lt_zero _)
    | succ g =>
      simp only [stripLoopF]
      have hts := trimStart_length_le s
      split
      · case isTrue hdd =>
        obtain ⟨u, hu⟩ := isPrefixOf_dd _ hdd
        cases hfind : findCh '\n' (trimStart s) with
        | none => rfl
        | some i =>
          have hi : 1 ≤ i := by
            rw [hu, findCh_cons_of_ne _ _ _ (by decide)] at hfind
            cases hj : findCh '\n' ('-' :: u) with
            | none => rw [hj] at hfind; simp at hfind
            | some j => rw [hj] at hfind; simp at hfind; omega
          have hlen : (trimStart s).length = u.length + 2 := by rw [hu]; rfl
          apply ih
          · have := List.length_drop i (trimStart s)
            omega
          · have := List.length_drop i (trimStart s)
            omega
      · case isFalse hdd =>
        split
        · case isTrue hbc =>
          obtain ⟨u, hu⟩ := isPrefixOf_bc _ hbc
          cases hfind : findSub ['*', '/'] (trimStart s) with
          | none => rfl
          | some i =>
            have hlen : (trimStart s).length = u.length + 2 := by rw [hu]; rfl
            apply ih
            · have := List.length_drop (i + 2) (trimStart s)
              omega
            · have := List.length_drop (i + 2) (trimStart s)
              omega
        · case isFalse hbc => rfl

theorem stripLoopF_run (f : Nat) (s : Str) (h : s.length < f) :
    stripLoopF f s = stripRun s :=
  stripLoopF_irrel f (s.length + 1) s h (Nat.lt_succ_self _)

theorem stripRun_congr (a b : Str) (h : trimStart a = trimStart b) :
    stripRun a = stripRun b := by
  unfold stripRun
  simp only [stripLoopF]
  rw [h]
  have hta : (trimStart b).length ≤ a.length := by
    rw [← h]; exact trimStart_length_le a
  have htb := trimStart_length_le b
  split
  · case isTrue hdd =>
    obtain ⟨u, hu⟩ := isPrefixOf_dd _ hdd
    cases hfind : findCh '\n' (trimStart b) with
    | none => rfl
    | some i =>
      have hi : 1 ≤ i := by
        rw [hu, findCh_cons_of_ne _ _ _ (by decide)] at hfind
        cases hj : findCh '\n' ('-' :: u) with
        | none => rw [hj] at hfind; simp at hfind
        | some j => rw [hj] at hfind; simp at hfind; omega
      have hlen : (trimStart b).length = u.length + 2 := by rw [hu]; rfl
      have hd := List.length_drop i (trimStart b)
      exact (stripLoopF_run a.length ((trimStart b).drop i) (by omega)).trans
        (stripLoopF_run b.length ((trimStart b).drop i) (by omega)).symm
  · case isFalse hdd =>
    split
    · case isTrue hbc =>
      obtain ⟨u, hu⟩ := isPrefixOf_bc _ hbc
      cases hfind : findSub ['*', '/'] (trimStart b) with
      | none => rfl
      | some i =>
        have hlen : (trimStart b).length = u.length + 2 := by rw [hu]; rfl
        have hd := List.length_drop (i + 2) (trimStart b)
        exact (stripLoopF_run a.length ((trimStart b).drop (i + 2)) (by omega)).trans
          (stripLoopF_run b.length ((trimStart b).drop (i + 2)) (by omega)).symm
    · case isFalse hbc => rfl

theorem stripRun_ws (c : Char) (s : Str) (hc : isWS c = true) :
    stripRun (c :: s) = stripRun s :=
  stripRun_congr _ _ (List.dropWhile_cons_of_pos hc)

theorem stripRun_trimStart (s : Str) : stripRun (trimStart s) = stripRun s :=
  stripRun_congr _ _ (List.dropWhile_idempotent isWS s)

theorem trimStart_of_head_nws (c : Char) (s : Str) (hc : isWS c = false) :
    trimStart (c :: s) = c :: s :=
  List.dropWhile_cons_of_neg (by rw [hc]; simp)

theorem stripLoopF_succ (f : Nat) (s : Str) :
    stripLoopF (f + 1) s =
      if ['-', '-'].isPrefixOf (trimStart s) then
        match findCh '\n' (trimStart s) with
        | some i => stripLoopF f ((trimStart s).drop i)
        | none => []
      else if ['/', '*'].isPrefixOf (trimStart s) then
        match findSub ['*', '/'] (trimStart s) with
        | some i => stripLoopF f ((trimStart s).drop (i + 2))
        | none => []
      else trimStart s := rfl

theorem stripRun_line (body r : Str) (hb : ∀ c ∈ body, (c == '\n') = false) :
    stripRun ('-' :: '-' :: (body ++ '\n' :: r)) = stripRun r := by
  unfold stripRun
  rw [stripLoopF_succ]
  rw [trimStart_of_head_nws _ _ (by decide)]
  rw [if_pos (by simp [List.isPrefixOf])]
  have hfind : findCh '\n' ('-' :: '-' :: (body ++ '\n' :: r))
      = some (body.length + 2) := by
    have h2 : ('-' :: '-' :: (body ++ '\n' :: r)) = ('-' :: '-' :: body) ++ '\n' :: r := by
      simp
    rw [h2, findCh_append _ _ ?hall]
    · rfl
    case hall =>
      intro c hc
      simp only [List.mem_cons] at hc
      rcases hc with h | h | h
      · rw [h]; decide
      · rw [h]; decide
      · exact hb c h
  rw [hfind]
  have hdrop : (('-' :: '-' :: (body ++ '\n' :: r)).drop (body.length + 2))
      = '\n' :: r := by
    have h2 : ('-' :: '-' :: (body ++ '\n' :: r)) = ('-' :: '-' :: body) ++ '\n' :: r := by
      simp
    have h3 : body.length + 2 = ('-' :: '-' :: body).length := by simp
    rw [h2, h3, List.drop_left]
  show stripLoopF ('-' :: '-' :: (body ++ '\n' :: r)).length
      (List.drop (body.length + 2) ('-' :: '-' :: (body ++ '\n' :: r)))
    = stripLoopF (r.length + 1) r
  rw [hdrop]
  rw [stripLoopF_run ('-' :: '-' :: (body ++ '\n' :: r)).length ('\n' :: r) (by simp; omega)]
  exact stripRun_ws '\n' r (by decide)

theorem findSub_term (body r : Str) (h : findSub ['*', '/'] body = none) :
    findSub ['*', '/'] (body ++ '*' :: '/' :: r) = some body.length := by
  induction body with
  | nil =>
    simp [findSub, List.isPrefixOf]
  | cons c bs ih =>
    have hpfx : (['*', '/'] : Str).isPrefixOf (c :: bs) = false := by
      cases hx : (['*', '/'] : Str).isPrefixOf (c :: bs) with
      | false => rfl
      | true => rw [findSub, if_pos hx] at h; exact absurd h (by simp)
    have hbs : findSub ['*', '/'] bs = none := by
      rw [findSub_cons_of_not _ _ _ hpfx] at h
      exact Option.map_eq_none.mp h
    have hpfx2 : (['*', '/'] : Str).isPrefixOf (c :: (bs ++ '*' :: '/' :: r)) = false := by
      cases bs with
      | nil => simp [List.isPrefixOf]
      | cons d bs2 =>
        simp only [List.cons_append, List.isPrefixOf] at hpfx ⊢
        exact hpfx
    rw [List.cons_append, findSub_cons_of_not _ _ _ hpfx2,
      ih hbs]
    rfl

theorem findSub_block (body r : Str) (h1 : findSub ['*', '/'] body = none)
    (h2 : body.head? ≠ some '/') :
    findSub ['*', '/'] ('/' :: '*' :: (body ++ '*' :: '/' :: r))
      = some (body.length + 2) := by
  have hp1 : (['*', '/'] : Str).isPrefixOf ('/' :: '*' :: (body ++ '*' :: '/' :: r))
      = false := by
    simp [List.isPrefixOf]
  rw [findSub_cons_of_not _ _ _ hp1]
  have hp2 : (['*', '/'] : Str).isPrefixOf ('*' :: (body ++ '*' :: '/' :: r))
      = false := by
    cases body with
    | nil => simp [List.isPrefixOf]
    | cons d bs =>
      have hd : ('/' == d) = false := by
        cases hx : ('/' == d) with
        | false => rfl
        | true =>
          have hde : d = '/' := (beq_iff_eq.mp hx).symm
          exact absurd (by simp [hde]) h2
      simp [List.isPrefixOf, hd]
  rw [findSub_cons_of_not _ _ _ hp2]
  rw [findSub_term body r h1]
  rfl

theorem stripRun_block (body r : Str) (h1 : findSub ['*', '/'] body = none)
    (h2 : body.head? ≠ some '/') :
    stripRun ('/' :: '*' :: (body ++ '*' :: '/' :: r)) = stripRun r := by
  unfold stripRun
  rw [stripLoopF_succ]
  rw [trimStart_of_head_nws _ _ (by decide)]
  rw [if_neg (by simp [List.isPrefixOf])]
  rw [if_pos (by simp [List.isPrefixOf])]
  rw [findSub_block body r h1 h2]
  show stripLoopF ('/' :: '*' :: (body ++ '*' :: '/' :: r)).length
      (List.drop (body.length + 2 + 2) ('/' :: '*' :: (body ++ '*' :: '/' :: r)))
    = stripLoopF (r.length + 1) r
  have hdrop : List.drop (body.length + 2 + 2) ('/' :: '*' :: (body ++ '*' :: '/' :: r))
      = r := by
    have hs : ('/' :: '*' :: (body ++ '*' :: '/' :: r))
        = ('/' :: '*' :: (body ++ ['*', '/'])) ++ r := by
      simp
    have hl : body.length + 2 + 2 = ('/' :: '*' :: (body ++ ['*', '/'])).length := by
      simp
    rw [hs, hl, List.drop_left]
  rw [hdrop]
  exact stripLoopF_run _ _ (by simp; omega)

theorem stripRun_ddNoNewline (rest : Str) (h : ∀ c ∈ rest, (c == '\n') = false) :
    stripRun ('-' :: '-' :: rest) = [] := by
  unfold stripRun
  rw [stripLoopF_succ]
  rw [trimStart_of_head_nws _ _ (by decide)]
  rw [if_pos (by simp [List.isPrefixOf])]
  rw [findCh_none _ ?hall]
  case hall =>
    intro c hc
    simp only [List.mem_cons] at hc
    rcases hc with hx | hx | hx
    · rw [hx]; decide
    · rw [hx]; decide
    · exact h c hx

theorem stripRun_leadAppend (p : Str) (hp : LeadComment p) :
    ∀ u, stripRun (p ++ u) = stripRun u := by
  induction hp with
  | nil => intro u; rfl
  | ws c q hc hq ih =>
    intro u
    rw [List.cons_append, stripRun_ws c _ hc]
    exact ih u
  | line body q hb hq ih =>
    intro u
    have hshape : ('-' :: '-' :: (body ++ '\n' :: q)) ++ u
        = '-' :: '-' :: (body ++ '\n' :: (q ++ u)) := by
      simp
    rw [hshape, stripRun_line body _ hb]
    exact ih u
  | blockC body q hb1 hb2 hq ih =>
    intro u
    have hshape : ('/' :: '*' :: (body ++ '*' :: '/' :: q)) ++ u
        = '/' :: '*' :: (body ++ '*' :: '/' :: (q ++ u)) := by
      simp
    rw [hshape, stripRun_block body _ hb1 hb2]
    exact ih u

theorem trimEnd_eq_nil_iff (v : Str) : trimEnd v = [] ↔ ∀ c ∈ v, isWS c = true := by
  unfold trimEnd
  rw [List.reverse_eq_nil_iff, List.dropWhile_eq_nil_iff]
  constructor
  · intro h c hc
    exact h c (List.mem_reverse.mpr hc)
  · intro h c hc
    exact h c (List.mem_reverse.mp hc)

theorem trimEnd_append_right (u v : Str) (h : trimEnd v ≠ []) :
    trimEnd (u ++ v) = u ++ trimEnd v := by
  have hne : (v.reverse.dropWhile isWS).isEmpty = false := by
    cases hx : v.reverse.dropWhile isWS with
    | nil => exact absurd (by unfold trimEnd; rw [hx]; rfl) h
    | cons a l => rfl
  unfold trimEnd
  rw [List.reverse_append, List.dropWhile_append, hne]
  simp

theorem trimEnd_append_nil (u v : Str) (h : trimEnd v = []) :
    trimEnd (u ++ v) = trimEnd u := by
  have hnil : (v.reverse.dropWhile isWS).isEmpty = true := by
    unfold trimEnd at h
    rw [List.reverse_eq_nil_iff] at h
    rw [h]
    rfl
  unfold trimEnd
  rw [List.reverse_append, List.dropWhile_append, hnil]
  simp

theorem trimEnd_cons_nws (c : Char) (p : Str) (hc : isWS c = false) :
    trimEnd (c :: p) = c :: trimEnd p := by
  by_cases h : trimEnd p = []
  · rw [show (c :: p) = [c] ++ p from rfl, trimEnd_append_nil [c] p h, h]
    unfold trimEnd
    simp [List.dropWhile, hc]
  · rw [show (c :: p) = [c] ++ p from rfl, trimEnd_append_right [c] p h]
    rfl

theorem trimEnd_cons_ws_nil (c : Char) (p : Str) (hc : isWS c = true)
    (h : trimEnd p = []) : trimEnd (c :: p) = [] := by
  rw [show (c :: p) = [c] ++ p from rfl, trimEnd_append_nil [c] p h]
  unfold trimEnd
  simp [List.dropWhile, hc]

theorem trimEnd_cons_ne (c : Char) (p : Str) (h : trimEnd p ≠ []) :
    trimEnd (c :: p) = c :: trimEnd p := by
  rw [show (c :: p) = [c] ++ p from rfl, trimEnd_append_right [c] p h]
  rfl

theorem mem_trimEnd (v : Str) (c : Char) (h : c ∈ trimEnd v) : c ∈ v := by
  unfold trimEnd at h
  rw [List.mem_reverse] at h
  exact List.mem_reverse.mp (List.Sublist.mem h (List.dropWhile_sublist isWS))

theorem stripRun_trimEnd_lead (p : Str) (hp : LeadComment p) :
    stripRun (trimEnd p) = [] := by
  induction hp with
  | nil => rfl
  | ws c q hc hq ih =>
    by_cases h : trimEnd q = []
    · rw [trimEnd_cons_ws_nil c q hc h]
      rfl
    · rw [trimEnd_cons_ne c q h, stripRun_ws c _ hc]
      exact ih
  | line body q hb hq ih =>
    have hsplit : ('-' :: '-' :: (body ++ '\n' :: q))
        = ('-' :: '-' :: body) ++ ('\n' :: q) := by simp
    by_cases h : trimEnd q = []
    · have h1 : trimEnd ('\n' :: q) = [] := trimEnd_cons_ws_nil '\n' q (by decide) h
      rw [hsplit, trimEnd_append_nil _ _ h1]
      rw [trimEnd_cons_nws '-' _ (by decide), trimEnd_cons_nws '-' _ (by decide)]
      exact stripRun_ddNoNewline (trimEnd body)
        (fun c hcm => hb c (mem_trimEnd body c hcm))
    · have h1 : trimEnd ('\n' :: q) = '\n' :: trimEnd q := trimEnd_cons_ne _ _ h
      rw [hsplit, trimEnd_append_right _ _ (by rw [h1]; simp), h1]
      have hshape : ('-' :: '-' :: body) ++ ('\n' :: trimEnd q)
          = '-' :: '-' :: (body ++ '\n' :: trimEnd q) := by simp
      rw [hshape, stripRun_line body _ hb]
      exact ih
  | blockC body q h1 h2 hq ih =>
    have hsplit : ('/' :: '*' :: (body ++ '*' :: '/' :: q))
        = ('/' :: '*' :: body) ++ ('*' :: '/' :: q) := by simp
    have hv : trimEnd ('*' :: '/' :: q) = '*' :: '/' :: trimEnd q := by
      rw [trimEnd_cons_ne '*' _ (by rw [trimEnd_cons_nws '/' q (by decide)]; simp),
        trimEnd_cons_nws '/' q (by decide)]
    rw [hsplit, trimEnd_append_right _ _ (by rw [hv]; simp), hv]
    have hshape : ('/' :: '*' :: body) ++ ('*' :: '/' :: trimEnd q)
        = '/' :: '*' :: (body ++ '*' :: '/' :: trimEnd q) := by simp
    rw [hshape, stripRun_block body _ h1 h2]
    exact ih

theorem stripComments_eq_run (s : Str) : stripComments s = stripRun (trimEnd s) := by
  unfold stripComments trimBoth
  rw [stripLoopF_run (s.length + 1) (trimStart (trimEnd s)) ?hlt]
  · exact stripRun_trimStart (trimEnd s)
  case hlt =>
    have h1 := trimStart_length_le (trimEnd s)
    have h2 : (trimEnd s).length ≤ s.length := by
      unfold trimEnd
      have := (List.dropWhile_sublist isWS (l := s.reverse)).length_le
      simpa using this
    omega

/-- C1 (amended): the statement classifier strips the leading run of line
and block comments interleaved with whitespace — a block comment ending at
the first occurrence of `*/`, which may fall short of the matching `*/`
when the body starts with `/` — and classifies as `Query` exactly when the
remaining text, upper-cased, starts with `SELECT` or `WITH` (`Command`
otherwise).  Prepending a comment run whose block comments' bodies contain
no `*/` and do not start with `/` (the `LeadComment` grammar) to a text
containing a non-whitespace character does not change its classification;
an input that is nothing but such comments (or an unterminated block
comment) classifies as `Command`; and the spec's two scenarios hold.
Without the body restriction the invariance fails, see
`C1_classifier_counterexample`. -/
theorem C1_classifier :
    (∀ t : Str, classify t = SqlKind.Query ↔
      ((['S','E','L','E','C','T'] : Str).isPrefixOf (upperStr (stripComments t)) = true
       ∨ (['W','I','T','H'] : Str).isPrefixOf (upperStr (stripComments t)) = true))
    ∧ (∀ p s : Str, LeadComment p → (∃ c ∈ s, isWS c = false) →
        classify (p ++ s) = classify s)
    ∧ (∀ p : Str, LeadComment p → classify p = SqlKind.Command)
    ∧ classify (strOf "-- note\nSELECT 1") = SqlKind.Query
    ∧ classify (strOf "/* unterminated") = SqlKind.Command := by
  refine ⟨?_, ?_, ?_, by decide, by decide⟩
  · intro t
    show (if _ then SqlKind.Query else SqlKind.Command) = SqlKind.Query ↔ _
    by_cases hc : ((['S','E','L','E','C','T'] : Str).isPrefixOf (upperStr (stripComments t))
        || (['W','I','T','H'] : Str).isPrefixOf (upperStr (stripComments t))) = true
    · rw [if_pos hc]
      exact iff_of_true rfl (Bool.or_eq_true_iff.mp hc)
    · rw [if_neg hc]
      refine iff_of_false (by decide) ?_
      intro hor
      exact hc (Bool.or_eq_true_iff.mpr hor)
  · intro p s hp hex
    have hv : trimEnd s ≠ [] := by
      rw [Ne, trimEnd_eq_nil_iff]
      intro hall
      rcases hex with ⟨c, hcm, hcw⟩
      rw [hall c hcm] at hcw
      exact absurd hcw (by decide)
    have hsc : stripComments (p ++ s) = stripComments s := by
      rw [stripComments_eq_run, stripComments_eq_run,
        trimEnd_append_right p s hv]
      exact stripRun_leadAppend p hp (trimEnd s)
    simp [classify, hsc]
  · intro p hp
    have h0 : stripComments p = [] := by
      rw [stripComments_eq_run]
      exact stripRun_trimEnd_lead p hp
    simp [classify, h0, upperStr, List.isPrefixOf]

theorem C1_classifier_witness :
    classify (strOf "/* note */ " ++ strOf "SELECT 1") = classify (strOf "SELECT 1") := by
  have hlead : LeadComment (strOf "/* note */ ") := by
    show LeadComment ('/' :: '*' :: (strOf " note " ++ '*' :: '/' :: strOf " "))
    exact LeadComment.blockC (strOf " note ") (strOf " ") (by decide) (by decide)
      (LeadComment.ws ' ' [] (by decide) LeadComment.nil)
  exact C1_classifier.2.1 (strOf "/* note */ ") (strOf "SELECT 1") hlead (by decide)

/-- C1 counterexample: `/*/a*/` is a well-formed block comment (`/*`, body
`/a`, matching `*/` at the end), but the source's `find("*/")` (db.rs line
38) matches the overlapping terminator at index 1, so `"/*/a*/SELECT 1"`
strips to `"a*/SELECT 1"` and classifies as `Command`, while its
comment-free suffix `"SELECT 1"` classifies as `Query` — a leading block
comment placement that changes the classification, refuting the claim as
stated. -/
theorem C1_classifier_counterexample :
    classify (strOf "/*/a*/SELECT 1") = SqlKind.Command
    ∧ classify (strOf "SELECT 1") = SqlKind.Query := by
  exact ⟨by decide, by decide⟩
